import Mathlib

/-!
Verification of the sharded payments engine: a shallow embedding of
`transaction.rs`, `client_status.rs` and `lib.rs`, with the monetary
`f32` values modelled as exact rationals and the literal comparison
tolerances of the source kept (`f32::EPSILON` as `eps`).
-/

set_option maxHeartbeats 1000000

namespace Payments

/-- Value of `f32::EPSILON` (the machine epsilon of the 32-bit float type
used by the source), as an exact rational: 2 to the power -23. -/
def eps : ℚ := 1 / 2 ^ 23

/-- Mirrors enum `Transaction` of `transaction.rs`: the five kinds. -/
inductive Transaction where
  | deposit (client tx : Nat) (amount : ℚ)
  | withdrawal (client tx : Nat) (amount : ℚ)
  | dispute (client tx : Nat)
  | resolve (client tx : Nat)
  | chargeback (client tx : Nat)
deriving DecidableEq

/-- Mirrors enum `TransactionStatus` of `transaction.rs`. -/
inductive TransactionStatus where
  | withdrew
  | deposited
  | failedDeposit
  | failedWithdrawal
  | onDispute
  | resolved
  | chargeback
deriving DecidableEq

/-- Mirrors `Transaction::get_client` of `transaction.rs`. -/
def Transaction.getClient : Transaction → Nat
  | .deposit client _ _ => client
  | .withdrawal client _ _ => client
  | .dispute client _ => client
  | .resolve client _ => client
  | .chargeback client _ => client

/-- Mirrors enum `ClientStatusError` of `client_status.rs` (source names). -/
inductive ClientStatusError where
  | WrongClientId (expected actual : Nat)
  | DuplicatedTransaction (tx : Nat)
  | NegativeAmount (amount : ℚ) (tx : Nat)
  | InsufficientFounds (amount : ℚ) (tx : Nat) (available : ℚ)
  | CustomerFrozen (client tx : Nat)
  | NonExistingTransaction (tx : Nat)
  | InvalidStatusToStartDispute (tx : Nat) (status : TransactionStatus)
  | InvalidStatusToResolve (tx : Nat) (status : TransactionStatus)
  | InvalidStatusToChargeback (tx : Nat) (status : TransactionStatus)
deriving DecidableEq

/-- The worker map `HashMap<u32, (TransactionStatus, f32)>`, embedded as an
association list in which the most recent binding for a key shadows older
ones; lookup and membership therefore behave exactly like the overwrite
semantics of `HashMap::insert` / `get` / `contains_key`. -/
abbrev StatusMap := List (Nat × TransactionStatus × ℚ)

/-- Mirrors `HashMap::get` (first, i.e. most recent, binding wins). -/
def StatusMap.find : StatusMap → Nat → Option (TransactionStatus × ℚ)
  | [], _ => none
  | (k, v) :: r, tx => if k = tx then some v else StatusMap.find r tx

/-- Mirrors `HashMap::contains_key`. -/
def StatusMap.contains (m : StatusMap) (tx : Nat) : Bool :=
  (m.find tx).isSome

/-- Mirrors `HashMap::insert` (shadowing cons: observationally an overwrite). -/
def StatusMap.insert (m : StatusMap) (tx : Nat) (v : TransactionStatus × ℚ) :
    StatusMap :=
  (tx, v) :: m

/-- The mutable local state of `client_status::build`: `available`, `held`,
`locked` and `transaction_statuses`. -/
structure WorkerState where
  available : ℚ
  held : ℚ
  locked : Bool
  statuses : StatusMap
deriving DecidableEq

/-- The initial worker state of `client_status::build`
(`0f32`, `0f32`, `false`, empty map). -/
def initState : WorkerState := ⟨0, 0, false, []⟩

/-- One iteration of the `for t in receiver` match of `client_status::build`,
arms in source order. For each constructor the applicable source arms are
kept in their original order; guards are translated literally, with
`f32::EPSILON` as `eps`. The final `WrongClientId` arm of the source is the
else branch of `client = id`, which is reachable exactly when every guarded
arm fails, i.e. when the client differs. -/
def step (id : Nat) (s : WorkerState) (t : Transaction) :
    WorkerState × List ClientStatusError :=
  match t with
  | .deposit client tx amount =>
    if client = id then
      if s.statuses.contains tx then
        (s, [.DuplicatedTransaction tx])
      else if 0 < amount ∨ |amount| < eps then
        ({ s with available := s.available + amount,
                  statuses := s.statuses.insert tx (.deposited, amount) }, [])
      else
        ({ s with statuses := s.statuses.insert tx (.failedDeposit, 0) },
         [.NegativeAmount amount tx])
    else (s, [.WrongClientId id client])
  | .withdrawal client tx amount =>
    if client = id then
      if s.statuses.contains tx then
        (s, [.DuplicatedTransaction tx])
      else if s.locked = false ∧
          (amount < s.available ∨ |amount - s.available| < eps) ∧
          (0 < amount ∨ |amount| < eps) then
        ({ s with available := s.available - amount,
                  statuses := s.statuses.insert tx (.withdrew, -amount) }, [])
      else if s.locked = false ∧ amount < 0 then
        ({ s with statuses := s.statuses.insert tx (.failedWithdrawal, 0) },
         [.NegativeAmount amount tx])
      else if s.locked = false then
        ({ s with statuses := s.statuses.insert tx (.failedWithdrawal, 0) },
         [.InsufficientFounds amount tx s.available])
      else
        ({ s with statuses := s.statuses.insert tx (.failedWithdrawal, 0) },
         [.CustomerFrozen client tx])
    else (s, [.WrongClientId id client])
  | .dispute client tx =>
    if client = id then
      match s.statuses.find tx with
      | some (.deposited, amount) | some (.resolved, amount) =>
        ({ s with held := s.held + amount, available := s.available - amount,
                  statuses := s.statuses.insert tx (.onDispute, amount) }, [])
      | some (status, _) => (s, [.InvalidStatusToStartDispute tx status])
      | none => (s, [.NonExistingTransaction tx])
    else (s, [.WrongClientId id client])
  | .resolve client tx =>
    if client = id then
      match s.statuses.find tx with
      | some (.onDispute, amount) =>
        ({ s with held := s.held - amount, available := s.available + amount,
                  statuses := s.statuses.insert tx (.resolved, amount) }, [])
      | some (status, _) => (s, [.InvalidStatusToResolve tx status])
      | none => (s, [.NonExistingTransaction tx])
    else (s, [.WrongClientId id client])
  | .chargeback client tx =>
    if client = id then
      match s.statuses.find tx with
      | some (.onDispute, amount) =>
        ({ s with held := s.held - amount, locked := true,
                  statuses := s.statuses.insert tx (.chargeback, amount) }, [])
      | some (status, _) => (s, [.InvalidStatusToChargeback tx status])
      | none => (s, [.NonExistingTransaction tx])
    else (s, [.WrongClientId id client])

/-- The full receive loop of `client_status::build` on a finite delivered
sequence: fold `step` from the initial state, accumulating the errors the
worker pushes in observation order. -/
def runWorker (id : Nat) (ts : List Transaction) :
    WorkerState × List ClientStatusError :=
  ts.foldl (fun acc t =>
    let r := step id acc.1 t
    (r.1, acc.2 ++ r.2)) (initState, [])

/-- Mirrors `transaction.rs::round` applied to `n * PRECISION`: `f32::round`
rounds half away from zero, embedded exactly on the rationals. -/
def roundHalfAway (q : ℚ) : ℤ :=
  if 0 ≤ q then ⌊q + 1 / 2⌋ else -⌊-q + 1 / 2⌋

/-- Mirrors `transaction.rs::round`: `(n * PRECISION).round() / PRECISION`
with `PRECISION = 10000`. -/
def round (n : ℚ) : ℚ :=
  ((roundHalfAway (n * 10000) : ℤ) : ℚ) / 10000

/-- Mirrors struct `ClientStatus` of `client_status.rs`. -/
structure ClientStatus where
  id : Nat
  available : ℚ
  held : ℚ
  total : ℚ
  locked : Bool
deriving DecidableEq

/-- The whole of `client_status::build` on a finite delivered sequence:
run the loop, then push the single snapshot the source constructs as
`ClientStatus { id, available: round(available), held: round(held), locked,
total: round(held + available) }`. -/
def build (id : Nat) (ts : List Transaction) :
    ClientStatus × List ClientStatusError :=
  let r := runWorker id ts
  ({ id := id, available := round r.1.available, held := round r.1.held,
     total := round (r.1.held + r.1.available), locked := r.1.locked }, r.2)

/-- Mirrors struct `RawTransaction` of `transaction.rs`. -/
structure RawTransaction where
  transaction_type : String
  client : Nat
  tx : Nat
  amount : ℚ
deriving DecidableEq

/-- Mirrors enum `TransactionParseError` of `transaction.rs`. -/
inductive TransactionParseError where
  | InvalidTransactionType (s : String)
deriving DecidableEq

/-- Mirrors `TryInto<Transaction> for RawTransaction`: deposit and
withdrawal amounts pass through `round` before delivery. -/
def RawTransaction.tryInto (r : RawTransaction) :
    Except TransactionParseError Transaction :=
  if r.transaction_type = "deposit" then
    .ok (.deposit r.client r.tx (round r.amount))
  else if r.transaction_type = "withdrawal" then
    .ok (.withdrawal r.client r.tx (round r.amount))
  else if r.transaction_type = "dispute" then
    .ok (.dispute r.client r.tx)
  else if r.transaction_type = "resolve" then
    .ok (.resolve r.client r.tx)
  else if r.transaction_type = "chargeback" then
    .ok (.chargeback r.client r.tx)
  else
    .error (.InvalidTransactionType r.transaction_type)

/-- The successfully parsed transactions of a raw batch, in input order
(the `process_transactions` loop skips records whose conversion fails,
pushing the parse error). -/
def parsedTransactions (rs : List RawTransaction) : List Transaction :=
  rs.filterMap (fun r => (r.tryInto).toOption)

/-- One dispatcher observation: record a customer id on first sighting
(`beams.insert` in `process_transactions`). -/
def addClient (acc : List Nat) (c : Nat) : List Nat :=
  if c ∈ acc then acc else acc ++ [c]

/-- The distinct customer ids of the parsed input, in first-sighting order:
`process_transactions` spawns exactly one worker per id on first sighting. -/
def distinctClients (ts : List Transaction) : List Nat :=
  ts.foldl (fun acc t => addClient acc t.getClient) []

/-- The concurrent pipeline `execute_transactions`, sequentialized by its
own ordering guarantee: the worker of customer `c` receives exactly the
input sub-sequence of transactions whose client is `c`, in input order, and
contributes one snapshot. Snapshot arrival order across customers is not
observable through the per-customer claims proved below. -/
def executeTransactions (rs : List RawTransaction) : List ClientStatus :=
  let ps := parsedTransactions rs
  (distinctClients ps).map fun c =>
    (build c (ps.filter fun t => t.getClient == c)).1

/-- Half-unit of the 1/10000 quantization, the tolerance named by section
4.3 of the specification. -/
def tol : ℚ := 1 / 20000

/-- Modelled from the spec: the single-threaded reference implementation of
the section 4.3 ledger decision table (rows E1, D0, D1, D2, W1 to W4, P1 to
P3, R1 to R3, C1 to C3 evaluated top-down), with the amount comparisons of
rules D1 and W1 tolerant within `tol` as section 4.3 prescribes. Only the
state effects are modelled; the error column plays no part in claim C1. -/
def specStep (id : Nat) (s : WorkerState) (t : Transaction) : WorkerState :=
  if t.getClient ≠ id then s
  else
    match t with
    | .deposit _ tx amt =>
      if s.statuses.contains tx then s
      else if 0 ≤ amt ∨ |amt| ≤ tol then
        { s with available := s.available + amt,
                 statuses := s.statuses.insert tx (.deposited, amt) }
      else
        { s with statuses := s.statuses.insert tx (.failedDeposit, 0) }
    | .withdrawal _ tx amt =>
      if s.statuses.contains tx then s
      else if s.locked = false ∧ (0 ≤ amt ∨ |amt| ≤ tol) ∧
          (amt ≤ s.available ∨ |amt - s.available| ≤ tol) then
        { s with available := s.available - amt,
                 statuses := s.statuses.insert tx (.withdrew, -amt) }
      else
        { s with statuses := s.statuses.insert tx (.failedWithdrawal, 0) }
    | .dispute _ tx =>
      match s.statuses.find tx with
      | some (.deposited, v) | some (.resolved, v) =>
        { s with held := s.held + v, available := s.available - v,
                 statuses := s.statuses.insert tx (.onDispute, v) }
      | some _ => s
      | none => s
    | .resolve _ tx =>
      match s.statuses.find tx with
      | some (.onDispute, v) =>
        { s with held := s.held - v, available := s.available + v,
                 statuses := s.statuses.insert tx (.resolved, v) }
      | some _ => s
      | none => s
    | .chargeback _ tx =>
      match s.statuses.find tx with
      | some (.onDispute, v) =>
        { s with held := s.held - v, locked := true,
                 statuses := s.statuses.insert tx (.chargeback, v) }
      | some _ => s
      | none => s

/-- Modelled from the spec: replay of a transaction sequence through the
section 4.3 reference state machine. -/
def specReplay (id : Nat) (ts : List Transaction) : WorkerState :=
  ts.foldl (specStep id) initState

/-- Modelled from the spec, section 4.3 Completion: when the sequence is
exhausted, emit the snapshot with each balance rounded independently and
`total` rounded from the pre-rounded sum. -/
def specBuild (id : Nat) (ts : List Transaction) : ClientStatus :=
  let s := specReplay id ts
  { id := id, available := round s.available, held := round s.held,
    total := round (s.available + s.held), locked := s.locked }

/-- C6: a deposit or withdrawal whose tx id is already present in the
status map of a worker for the matching customer changes nothing at all
(balances, lock flag and status map included, whatever the amount), and
appends exactly one `DuplicatedTransaction` error: the duplicate check is
the first arm of the source match, so it precedes the amount and
sufficiency checks. -/
theorem c6_duplicate_tx_frozen_out (id : Nat) (s : WorkerState) (tx : Nat)
    (amt : ℚ) (h : s.statuses.contains tx = true) :
    step id s (.deposit id tx amt) = (s, [.DuplicatedTransaction tx]) ∧
    step id s (.withdrawal id tx amt) = (s, [.DuplicatedTransaction tx]) := by
  constructor <;> simp [step, h]

/-- Witness for C6 at a concrete state: tx 3 is recorded, so both a deposit
and a withdrawal reusing id 3 (with a negative amount, which would
otherwise be rejected) leave the state untouched. -/
theorem c6_duplicate_tx_frozen_out_witness :
    step 1 ⟨2, 0, false, [(3, .deposited, 1)]⟩ (.deposit 1 3 (-5))
      = (⟨2, 0, false, [(3, .deposited, 1)]⟩, [.DuplicatedTransaction 3]) ∧
    step 1 ⟨2, 0, false, [(3, .deposited, 1)]⟩ (.withdrawal 1 3 (-5))
      = (⟨2, 0, false, [(3, .deposited, 1)]⟩, [.DuplicatedTransaction 3]) :=
  c6_duplicate_tx_frozen_out 1 ⟨2, 0, false, [(3, .deposited, 1)]⟩ 3 (-5)
    (by simp [StatusMap.contains, StatusMap.find])

/-- C7: a dispute referencing a tx whose recorded status is neither
`Deposited` nor `Resolved` (for instance `Withdrew`) changes nothing and
appends an `InvalidStatusToStartDispute` error carrying that status. -/
theorem c7_invalid_dispute_start (id : Nat) (s : WorkerState) (tx : Nat)
    (st : TransactionStatus) (v : ℚ)
    (hfind : s.statuses.find tx = some (st, v))
    (h1 : st ≠ .deposited) (h2 : st ≠ .resolved) :
    step id s (.dispute id tx) = (s, [.InvalidStatusToStartDispute tx st]) := by
  cases st <;> simp_all [step]

/-- Witness for C7: tx 2 is in status `Withdrew`, so disputing it only
produces the error. -/
theorem c7_invalid_dispute_start_witness :
    step 1 ⟨2, 0, false, [(2, .withdrew, -1)]⟩ (.dispute 1 2)
      = (⟨2, 0, false, [(2, .withdrew, -1)]⟩,
         [.InvalidStatusToStartDispute 2 .withdrew]) :=
  c7_invalid_dispute_start 1 ⟨2, 0, false, [(2, .withdrew, -1)]⟩ 2 .withdrew (-1)
    (by simp [StatusMap.find]) (by simp) (by simp)

/-- C8: a chargeback on a tx in status `(OnDispute, v)` decreases held by
`v`, sets the lock flag, and moves the tx to `(Chargeback, v)`; available
is untouched, as the record update shows. -/
theorem c8_chargeback_effect (id : Nat) (s : WorkerState) (tx : Nat) (v : ℚ)
    (hfind : s.statuses.find tx = some (.onDispute, v)) :
    step id s (.chargeback id tx)
      = ({ s with
            held := s.held - v,
            locked := true,
            statuses := s.statuses.insert tx (.chargeback, v) }, []) := by
  simp [step, hfind]

/-- Witness for C8 at a concrete state with tx 4 under dispute for 3. -/
theorem c8_chargeback_effect_witness :
    step 1 ⟨5, 3, false, [(4, .onDispute, 3)]⟩ (.chargeback 1 4)
      = (⟨5, 0, true, [(4, .chargeback, 3), (4, .onDispute, 3)]⟩, []) := by
  have h := c8_chargeback_effect 1 ⟨5, 3, false, [(4, .onDispute, 3)]⟩ 4 3
    (by simp [StatusMap.find])
  rw [h]
  norm_num [StatusMap.insert]

/-- C9: any transaction whose customer differs from the worker id leaves
the whole worker state unchanged and appends a `WrongClientId` error;
every state-mutating arm of the source match is guarded by `client == id`,
so the mismatch case falls through to the error arm regardless of lock
state, duplicate tx ids or transaction kind. -/
theorem c9_wrong_customer (id : Nat) (s : WorkerState) (t : Transaction)
    (h : t.getClient ≠ id) :
    step id s t = (s, [.WrongClientId id t.getClient]) := by
  cases t <;> simp_all [step, Transaction.getClient]

/-- Witness for C9: a deposit for customer 2 reaching the worker of
customer 1 (in a locked state, with the tx id already recorded) only
produces the error. -/
theorem c9_wrong_customer_witness :
    step 1 ⟨2, 0, true, [(7, .deposited, 2)]⟩ (.deposit 2 7 5)
      = (⟨2, 0, true, [(7, .deposited, 2)]⟩, [.WrongClientId 1 2]) :=
  c9_wrong_customer 1 ⟨2, 0, true, [(7, .deposited, 2)]⟩ (.deposit 2 7 5)
    (by simp [Transaction.getClient])

/-- C10: a dispute or a resolve addressed to the worker's own customer
never changes `available + held`: the successful branches move the
disputed value between the two balances and every error branch changes
neither, so only deposits, withdrawals and chargebacks can change the sum. -/
theorem c10_dispute_resolve_preserve_sum (id : Nat) (s : WorkerState)
    (tx : Nat) :
    (step id s (.dispute id tx)).1.available + (step id s (.dispute id tx)).1.held
      = s.available + s.held ∧
    (step id s (.resolve id tx)).1.available + (step id s (.resolve id tx)).1.held
      = s.available + s.held := by
  constructor <;>
  · simp only [step, if_pos rfl]
    rcases hfind : s.statuses.find tx with _ | ⟨st, v⟩
    · simp
    · cases st <;> simp

/-- C4 counterexample: the claim quantifies over every withdrawal on a
locked account, but the duplicate check is the first arm of the match. In
the locked state reached by deposit, dispute, chargeback of tx 1, a
withdrawal reusing tx id 1 produces `DuplicatedTransaction`, not
`CustomerFrozen`, and the status of tx 1 stays `Chargeback` instead of
becoming `FailedWithdrawal`. -/
theorem c4_locked_counterexample :
    (runWorker 1 [.deposit 1 1 1, .dispute 1 1, .chargeback 1 1]).1.locked = true ∧
    (step 1 (runWorker 1 [.deposit 1 1 1, .dispute 1 1, .chargeback 1 1]).1
      (.withdrawal 1 1 (1/2))).2 = [.DuplicatedTransaction 1] ∧
    (step 1 (runWorker 1 [.deposit 1 1 1, .dispute 1 1, .chargeback 1 1]).1
      (.withdrawal 1 1 (1/2))).1.statuses.find 1 = some (.chargeback, 1) ∧
    (step 1 (runWorker 1 [.deposit 1 1 1, .dispute 1 1, .chargeback 1 1]).1
      (.withdrawal 1 1 (1/2))).1.statuses.find 1 ≠ some (.failedWithdrawal, 0) := by
  norm_num [runWorker, step, initState, StatusMap.contains, StatusMap.find,
    StatusMap.insert, eps, abs_lt]

/-- C4 as amended: once locked is true it stays true after any transaction;
while locked, a deposit with non-negative amount and a tx id not already in
the status map is applied in full; and a withdrawal with a tx id not
already in the status map, regardless of its amount, leaves the balances
unchanged, records `(FailedWithdrawal, 0)` and appends `CustomerFrozen`.
Deposits or withdrawals reusing a recorded tx id fall under the duplicate
rule instead. -/
theorem c4_locked_semantics (id : Nat) (s : WorkerState) :
    (∀ t : Transaction, s.locked = true → ((step id s t).1).locked = true) ∧
    (∀ (tx : Nat) (amt : ℚ), s.locked = true → s.statuses.contains tx = false →
      0 ≤ amt →
      step id s (.deposit id tx amt)
        = ({ s with
              available := s.available + amt,
              statuses := s.statuses.insert tx (.deposited, amt) }, [])) ∧
    (∀ (tx : Nat) (amt : ℚ), s.locked = true → s.statuses.contains tx = false →
      step id s (.withdrawal id tx amt)
        = ({ s with
              statuses := s.statuses.insert tx (.failedWithdrawal, 0) },
           [.CustomerFrozen id tx])) := by
  refine ⟨fun t hl => ?_, fun tx amt hl hfree hamt => ?_, fun tx amt hl hfree => ?_⟩
  · cases t with
    | deposit client tx amt =>
      by_cases hc : client = id <;> simp only [step, hc] <;> split_ifs <;> simp [hl]
    | withdrawal client tx amt =>
      by_cases hc : client = id <;> simp only [step, hc] <;> split_ifs <;>
        simp_all
    | dispute client tx =>
      by_cases hc : client = id <;> simp only [step, hc, if_pos, if_neg] <;>
        [skip; simp [hl]]
      rcases s.statuses.find tx with _ | ⟨st, v⟩
      · simp [hl]
      · cases st <;> simp [hl]
    | resolve client tx =>
      by_cases hc : client = id <;> simp only [step, hc, if_pos, if_neg] <;>
        [skip; simp [hl]]
      rcases s.statuses.find tx with _ | ⟨st, v⟩
      · simp [hl]
      · cases st <;> simp [hl]
    | chargeback client tx =>
      by_cases hc : client = id <;> simp only [step, hc, if_pos, if_neg] <;>
        [skip; simp [hl]]
      rcases s.statuses.find tx with _ | ⟨st, v⟩
      · simp [hl]
      · cases st <;> simp [hl]
  · rcases eq_or_lt_of_le hamt with h0 | h0
    · simp [step, hfree, ← h0, eps]
    · simp [step, hfree, h0]
  · simp [step, hfree, hl]

/-- Witness for the amended C4 at the locked state with an empty status
map: a chargeback keeps the lock, a deposit of 2 under tx 7 is applied, a
withdrawal of 2 under tx 8 is frozen out. -/
theorem c4_locked_semantics_witness :
    ((step 1 ⟨0, 0, true, []⟩ (.chargeback 1 5)).1).locked = true ∧
    step 1 ⟨0, 0, true, []⟩ (.deposit 1 7 2)
      = (⟨2, 0, true, [(7, .deposited, 2)]⟩, []) ∧
    step 1 ⟨0, 0, true, []⟩ (.withdrawal 1 8 2)
      = (⟨0, 0, true, [(8, .failedWithdrawal, 0)]⟩, [.CustomerFrozen 1 8]) := by
  refine ⟨(c4_locked_semantics 1 ⟨0, 0, true, []⟩).1 (.chargeback 1 5) rfl, ?_, ?_⟩
  · have h := (c4_locked_semantics 1 ⟨0, 0, true, []⟩).2.1 7 2 rfl
      (by simp [StatusMap.contains, StatusMap.find]) (by norm_num)
    rw [h]; norm_num [StatusMap.insert]
  · have h := (c4_locked_semantics 1 ⟨0, 0, true, []⟩).2.2 8 2 rfl
      (by simp [StatusMap.contains, StatusMap.find])
    rw [h]; norm_num [StatusMap.insert]

/-- C3 counterexample: with available = 1 after a deposit of 1, the amount
25001/25000 = 1.00004 lies in the claimed half-unit window
(1 < 1.00004 and 1.00004 iss at most 1 + 0.00005), yet the withdrawal fails
with `InsufficientFounds` and status `(FailedWithdrawal, 0)`; likewise
-1/25000 = -0.00004 lies in [-0.00005, 0) yet the deposit is rejected as
`NegativeAmount` with status `(FailedDeposit, 0)`. -/
theorem c3_tolerance_counterexample :
    ((runWorker 1 [.deposit 1 1 1]).1.available < 25001/25000 ∧
     (25001/25000 : ℚ) ≤ (runWorker 1 [.deposit 1 1 1]).1.available + 1/20000 ∧
     (step 1 (runWorker 1 [.deposit 1 1 1]).1 (.withdrawal 1 2 (25001/25000))).2
       = [.InsufficientFounds (25001/25000) 2 1] ∧
     (step 1 (runWorker 1 [.deposit 1 1 1]).1
       (.withdrawal 1 2 (25001/25000))).1.statuses.find 2
       = some (.failedWithdrawal, 0)) ∧
    ((-1/20000 : ℚ) ≤ -1/25000 ∧ (-1/25000 : ℚ) < 0 ∧
     (step 1 initState (.deposit 1 1 (-1/25000))).2
       = [.NegativeAmount (-1/25000) 1] ∧
     (step 1 initState (.deposit 1 1 (-1/25000))).1.statuses.find 1
       = some (.failedDeposit, 0)) := by
  norm_num [runWorker, step, initState, StatusMap.contains, StatusMap.find,
    StatusMap.insert, eps, abs_lt]

/-- C3 as amended: the comparisons of the source tolerate only
`f32::EPSILON`, i.e. 2 to the power -23, not the half-unit 0.00005 of the
quantization. With a fresh tx id, an unlocked account and a non-negative
balance, a withdrawal of an amount strictly above the balance succeeds
exactly when the excess is below `eps`, and a deposit of a negative amount
is treated as non-negative exactly when its magnitude is below `eps`. -/
theorem c3_tolerance_amended (s : WorkerState) (id tx : Nat) (amt : ℚ) :
    (s.statuses.contains tx = false → s.locked = false → 0 ≤ s.available →
      s.available < amt →
      ((step id s (.withdrawal id tx amt)).1.statuses.find tx
          = some (.withdrew, -amt) ↔ amt - s.available < eps)) ∧
    (s.statuses.contains tx = false → amt < 0 →
      ((step id s (.deposit id tx amt)).1.statuses.find tx
          = some (.deposited, amt) ↔ -amt < eps)) := by
  constructor
  · intro hfree hl hA hlt
    have hpos : 0 < amt := lt_of_le_of_lt hA hlt
    have habs : |amt - s.available| = amt - s.available :=
      abs_of_pos (sub_pos.2 hlt)
    by_cases heps : amt - s.available < eps
    · have hguard : s.locked = false ∧
          (amt < s.available ∨ |amt - s.available| < eps) ∧
          (0 < amt ∨ |amt| < eps) :=
        ⟨hl, Or.inr (by rw [habs]; exact heps), Or.inl hpos⟩
      simp [step, hfree, hguard, StatusMap.insert, StatusMap.find, heps]
    · have hno : ¬(amt < s.available ∨ |amt - s.available| < eps) := by
        rintro (h2 | h2)
        · exact absurd h2 (not_lt.2 hlt.le)
        · rw [habs] at h2; exact heps h2
      simp [step, hfree, hno, hl, not_lt.2 hpos.le, StatusMap.insert,
        StatusMap.find, heps]
  · intro hfree hneg
    have habs : |amt| = -amt := abs_of_neg hneg
    by_cases heps : -amt < eps
    · have hguard : 0 < amt ∨ |amt| < eps :=
        Or.inr (by rw [habs]; exact heps)
      simp [step, hfree, hguard, StatusMap.insert, StatusMap.find, heps]
    · have hguard : ¬(0 < amt ∨ |amt| < eps) := by
        rintro (h | h)
        · exact absurd h (not_lt.2 hneg.le)
        · rw [habs] at h; exact heps h
      simp [step, hfree, hguard, StatusMap.insert, StatusMap.find, heps]

/-- Witness for the amended C3 at the initial state: withdrawing 2 from a
balance of 0 does not record `(Withdrew, -2)` since the excess 2 is not
below `eps`, and depositing -2 does not record `(Deposited, -2)` since 2 is
not below `eps`. -/
theorem c3_tolerance_amended_witness :
    ((step 1 initState (.withdrawal 1 1 2)).1.statuses.find 1
        = some (.withdrew, -2) ↔ (2 : ℚ) - initState.available < eps) ∧
    ((step 1 initState (.deposit 1 1 (-2))).1.statuses.find 1
        = some (.deposited, -2) ↔ -(-2 : ℚ) < eps) :=
  ⟨(c3_tolerance_amended initState 1 1 2).1 rfl rfl le_rfl (by norm_num [initState]),
   (c3_tolerance_amended initState 1 1 (-2)).2 rfl (by norm_num)⟩

/-- C2: for every finite delivered sequence the worker emits exactly one
snapshot, built as available = round A, held = round H, locked = L and
total = round (A + H) from the running unrounded balances; and the second
conjunct shows at a concrete run that this differs from rounding the
operands first, so total really is rounded from the pre-rounded sum. The
emission is unconditional in `build`, so no error aborts it. -/
theorem c2_snapshot_formula :
    (∀ (id : Nat) (ts : List Transaction),
      (build id ts).1
        = { id := id,
            available := round (runWorker id ts).1.available,
            held := round (runWorker id ts).1.held,
            total := round ((runWorker id ts).1.available + (runWorker id ts).1.held),
            locked := (runWorker id ts).1.locked }) ∧
    (build 1 [.deposit 1 1 (3/50000), .deposit 1 2 (3/50000), .dispute 1 2]).1.total
      ≠ round (runWorker 1 [.deposit 1 1 (3/50000), .deposit 1 2 (3/50000),
          .dispute 1 2]).1.available
        + round (runWorker 1 [.deposit 1 1 (3/50000), .deposit 1 2 (3/50000),
          .dispute 1 2]).1.held := by
  constructor
  · intro id ts
    simp [build, add_comm]
  · norm_num [build, runWorker, step, initState, StatusMap.contains,
      StatusMap.find, StatusMap.insert, eps, abs_lt, round, roundHalfAway]

/-- A rational that is an integer multiple of the 1/10000 quantum. Every
amount delivered by the parsing adapter is of this shape, because
`TryInto<Transaction>` rounds it. -/
def Quant (q : ℚ) : Prop := ∃ k : ℤ, q = (k : ℚ) / 10000

theorem quant_zero : Quant 0 := ⟨0, by norm_num⟩

theorem quant_add {a b : ℚ} (ha : Quant a) (hb : Quant b) : Quant (a + b) := by
  obtain ⟨j, rfl⟩ := ha
  obtain ⟨k, rfl⟩ := hb
  exact ⟨j + k, by push_cast; ring⟩

theorem quant_neg {a : ℚ} (ha : Quant a) : Quant (-a) := by
  obtain ⟨j, rfl⟩ := ha
  exact ⟨-j, by push_cast; ring⟩

theorem quant_sub {a b : ℚ} (ha : Quant a) (hb : Quant b) : Quant (a - b) := by
  rw [sub_eq_add_neg]
  exact quant_add ha (quant_neg hb)

theorem quant_round (q : ℚ) : Quant (round q) :=
  ⟨roundHalfAway (q * 10000), rfl⟩

/-- A quantized rational smaller in magnitude than the quantum is zero. -/
theorem quant_eq_zero {d : ℚ} (hd : Quant d) (h : |d| < 1 / 10000) : d = 0 := by
  obtain ⟨k, rfl⟩ := hd
  have h1 : |(k : ℚ)| < 1 := by
    rw [abs_div, show |(10000 : ℚ)| = 10000 by norm_num] at h
    linarith
  have h2 : k = 0 := by
    have h3 : |k| < 1 := by exact_mod_cast h1
    exact Int.abs_lt_one_iff.1 h3
  simp [h2]

/-- On quantized amounts the source guard `amount > 0 || |amount| < EPSILON`
collapses to plain non-negativity, because `eps` is below the quantum. -/
theorem code_nonneg_iff {a : ℚ} (ha : Quant a) :
    (0 < a ∨ |a| < eps) ↔ 0 ≤ a := by
  constructor
  · rintro (h | h)
    · exact h.le
    · have h0 : a = 0 := quant_eq_zero ha (h.trans (by norm_num [eps]))
      simp [h0]
  · intro h
    rcases eq_or_lt_of_le h with h | h
    · right
      rw [← h, abs_zero]
      norm_num [eps]
    · exact Or.inl h

/-- On quantized amounts the spec guard `amt ≥ 0` with half-unit tolerance
also collapses to plain non-negativity. -/
theorem spec_nonneg_iff {a : ℚ} (ha : Quant a) :
    (0 ≤ a ∨ |a| ≤ tol) ↔ 0 ≤ a := by
  constructor
  · rintro (h | h)
    · exact h
    · have h0 : a = 0 := quant_eq_zero ha (lt_of_le_of_lt h (by norm_num [tol]))
      simp [h0]
  · exact Or.inl

/-- On quantized amounts the source sufficiency guard
`amount < available || |amount - available| < EPSILON` collapses to `≤`. -/
theorem code_le_iff {a b : ℚ} (hab : Quant (a - b)) :
    (a < b ∨ |a - b| < eps) ↔ a ≤ b := by
  constructor
  · rintro (h | h)
    · exact h.le
    · have h0 : a - b = 0 := quant_eq_zero hab (h.trans (by norm_num [eps]))
      linarith
  · intro h
    rcases lt_or_eq_of_le h with h | h
    · exact Or.inl h
    · right
      rw [h, sub_self, abs_zero]
      norm_num [eps]

/-- On quantized amounts the spec guard `amt ≤ A` with half-unit tolerance
also collapses to plain `≤`. -/
theorem spec_le_iff {a b : ℚ} (hab : Quant (a - b)) :
    (a ≤ b ∨ |a - b| ≤ tol) ↔ a ≤ b := by
  constructor
  · rintro (h | h)
    · exact h
    · have h0 : a - b = 0 :=
        quant_eq_zero hab (lt_of_le_of_lt h (by norm_num [tol]))
      linarith
  · exact Or.inl

/-- All stored signed amounts of a status map are quantized. -/
def MapQuant (m : StatusMap) : Prop := ∀ p ∈ m, Quant p.2.2

theorem mapQuant_nil : MapQuant [] := by
  intro p hp
  simp at hp

theorem mapQuant_insert {m : StatusMap} {tx : Nat}
    {sv : TransactionStatus × ℚ} (hm : MapQuant m) (hv : Quant sv.2) :
    MapQuant (m.insert tx sv) := by
  intro p hp
  rcases List.mem_cons.1 hp with h | h
  · rw [h]
    exact hv
  · exact hm p h

theorem mapQuant_find :
    ∀ {m : StatusMap} {tx : Nat} {st : TransactionStatus} {v : ℚ},
    MapQuant m → m.find tx = some (st, v) → Quant v := by
  intro m
  induction m with
  | nil =>
    intro tx st v _ h
    simp [StatusMap.find] at h
  | cons p r ih =>
    intro tx st v hm h
    obtain ⟨k, sv⟩ := p
    rw [StatusMap.find] at h
    by_cases hk : k = tx
    · rw [if_pos hk] at h
      have hsv : sv = (st, v) := by injection h
      have : Quant sv.2 := hm (k, sv) (List.mem_cons_self _ _)
      rwa [hsv] at this
    · rw [if_neg hk] at h
      exact ih (fun q hq => hm q (List.mem_cons_of_mem _ hq)) h

/-- The running balances and every stored amount are quantized. -/
def StateQuant (s : WorkerState) : Prop :=
  Quant s.available ∧ Quant s.held ∧ MapQuant s.statuses

/-- The amounts a transaction carries are quantized (trivial for the
amount-free kinds). -/
def TxnQuant : Transaction → Prop
  | .deposit _ _ a => Quant a
  | .withdrawal _ _ a => Quant a
  | _ => True

/-- Core refinement step: on a quantized state and a quantized transaction,
one iteration of the source loop yields exactly the state the section 4.3
reference table yields, and keeps the state quantized. The only place the
two sides differ textually is the pair of amount guards, which the
quantization collapses to the same plain comparisons. -/
theorem step_agrees (id : Nat) (s : WorkerState) (t : Transaction)
    (hs : StateQuant s) (ht : TxnQuant t) :
    (step id s t).1 = specStep id s t ∧ StateQuant (step id s t).1 := by
  obtain ⟨hA, hH, hM⟩ := hs
  cases t with
  | deposit client tx amt =>
    have hq : Quant amt := ht
    by_cases hc : client = id
    · by_cases hdup : s.statuses.contains tx
      · have hstep : step id s (.deposit client tx amt)
            = (s, [.DuplicatedTransaction tx]) := by
          simp [step, hc, hdup]
        refine ⟨?_, ?_⟩ <;> rw [hstep]
        · simp [specStep, Transaction.getClient, hc, hdup]
        · exact ⟨hA, hH, hM⟩
      · by_cases h0 : 0 ≤ amt
        · have g1 : 0 < amt ∨ |amt| < eps := (code_nonneg_iff hq).2 h0
          have hstep : step id s (.deposit client tx amt)
              = ({ s with
                    available := s.available + amt,
                    statuses := s.statuses.insert tx (.deposited, amt) }, []) := by
            simp [step, hc, hdup, g1]
          refine ⟨?_, ?_⟩ <;> rw [hstep]
          · simp [specStep, Transaction.getClient, hc, hdup, h0]
          · exact ⟨quant_add hA hq, hH, mapQuant_insert hM hq⟩
        · have g1 : ¬(0 < amt ∨ |amt| < eps) :=
            fun h => h0 ((code_nonneg_iff hq).1 h)
          have g2 : ¬(0 ≤ amt ∨ |amt| ≤ tol) :=
            fun h => h0 ((spec_nonneg_iff hq).1 h)
          have hstep : step id s (.deposit client tx amt)
              = ({ s with statuses := s.statuses.insert tx (.failedDeposit, 0) },
                 [.NegativeAmount amt tx]) := by
            simp [step, hc, hdup, g1]
          refine ⟨?_, ?_⟩ <;> rw [hstep]
          · simp [specStep, Transaction.getClient, hc, hdup, g2]
          · exact ⟨hA, hH, mapQuant_insert hM quant_zero⟩
    · have hstep : step id s (.deposit client tx amt)
          = (s, [.WrongClientId id client]) := by
        simp [step, hc]
      refine ⟨?_, ?_⟩ <;> rw [hstep]
      · simp [specStep, Transaction.getClient, hc]
      · exact ⟨hA, hH, hM⟩
  | withdrawal client tx amt =>
    have hq : Quant amt := ht
    have hqd : Quant (amt - s.available) := quant_sub hq hA
    by_cases hc : client = id
    · by_cases hdup : s.statuses.contains tx
      · have hstep : step id s (.withdrawal client tx amt)
            = (s, [.DuplicatedTransaction tx]) := by
          simp [step, hc, hdup]
        refine ⟨?_, ?_⟩ <;> rw [hstep]
        · simp [specStep, Transaction.getClient, hc, hdup]
        · exact ⟨hA, hH, hM⟩
      · by_cases hg : s.locked = false ∧ 0 ≤ amt ∧ amt ≤ s.available
        · have g1 : s.locked = false ∧
              (amt < s.available ∨ |amt - s.available| < eps) ∧
              (0 < amt ∨ |amt| < eps) :=
            ⟨hg.1, (code_le_iff hqd).2 hg.2.2, (code_nonneg_iff hq).2 hg.2.1⟩
          have g2 : s.locked = false ∧ (0 ≤ amt ∨ |amt| ≤ tol) ∧
              (amt ≤ s.available ∨ |amt - s.available| ≤ tol) :=
            ⟨hg.1, Or.inl hg.2.1, Or.inl hg.2.2⟩
          have hstep : step id s (.withdrawal client tx amt)
              = ({ s with
                    available := s.available - amt,
                    statuses := s.statuses.insert tx (.withdrew, -amt) }, []) := by
            simp [step, hc, hdup, g1]
          refine ⟨?_, ?_⟩ <;> rw [hstep]
          · simp [specStep, Transaction.getClient, hc, hdup, g2]
          · exact ⟨quant_sub hA hq, hH, mapQuant_insert hM (quant_neg hq)⟩
        · have g1 : ¬(s.locked = false ∧
              (amt < s.available ∨ |amt - s.available| < eps) ∧
              (0 < amt ∨ |amt| < eps)) := by
            rintro ⟨l, h2, h3⟩
            exact hg ⟨l, (code_nonneg_iff hq).1 h3, (code_le_iff hqd).1 h2⟩
          have g2 : ¬(s.locked = false ∧ (0 ≤ amt ∨ |amt| ≤ tol) ∧
              (amt ≤ s.available ∨ |amt - s.available| ≤ tol)) := by
            rintro ⟨l, h2, h3⟩
            exact hg ⟨l, (spec_nonneg_iff hq).1 h2, (spec_le_iff hqd).1 h3⟩
          have hstep : (step id s (.withdrawal client tx amt)).1
              = { s with statuses := s.statuses.insert tx (.failedWithdrawal, 0) } := by
            simp only [step]
            rw [if_pos hc, if_neg (by simp [hdup]), if_neg g1]
            split_ifs <;> rfl
          refine ⟨?_, ?_⟩ <;> rw [hstep]
          · simp [specStep, Transaction.getClient, hc, hdup, g2]
          · exact ⟨hA, hH, mapQuant_insert hM quant_zero⟩
    · have hstep : step id s (.withdrawal client tx amt)
          = (s, [.WrongClientId id client]) := by
        simp [step, hc]
      refine ⟨?_, ?_⟩ <;> rw [hstep]
      · simp [specStep, Transaction.getClient, hc]
      · exact ⟨hA, hH, hM⟩
  | dispute client tx =>
    by_cases hc : client = id
    · rcases hfind : s.statuses.find tx with _ | ⟨st, v⟩
      · have hstep : step id s (.dispute client tx)
            = (s, [.NonExistingTransaction tx]) := by
          simp [step, hc, hfind]
        refine ⟨?_, ?_⟩ <;> rw [hstep]
        · simp [specStep, Transaction.getClient, hc, hfind]
        · exact ⟨hA, hH, hM⟩
      · have hv : Quant v := mapQuant_find hM hfind
        by_cases hst : st = .deposited ∨ st = .resolved
        · have hstep : step id s (.dispute client tx)
              = ({ s with
                    held := s.held + v,
                    available := s.available - v,
                    statuses := s.statuses.insert tx (.onDispute, v) }, []) := by
            rcases hst with rfl | rfl <;> simp [step, hc, hfind]
          refine ⟨?_, ?_⟩ <;> rw [hstep]
          · rcases hst with rfl | rfl <;>
              simp [specStep, Transaction.getClient, hc, hfind]
          · exact ⟨quant_sub hA hv, quant_add hH hv, mapQuant_insert hM hv⟩
        · push_neg at hst
          have hstep : (step id s (.dispute client tx)).1 = s := by
            cases st <;> simp_all [step, hc, hfind]
          refine ⟨?_, ?_⟩ <;> rw [hstep]
          · cases st <;> simp_all [specStep, Transaction.getClient, hc, hfind]
          · exact ⟨hA, hH, hM⟩
    · have hstep : step id s (.dispute client tx)
          = (s, [.WrongClientId id client]) := by
        simp [step, hc]
      refine ⟨?_, ?_⟩ <;> rw [hstep]
      · simp [specStep, Transaction.getClient, hc]
      · exact ⟨hA, hH, hM⟩
  | resolve client tx =>
    by_cases hc : client = id
    · rcases hfind : s.statuses.find tx with _ | ⟨st, v⟩
      · have hstep : step id s (.resolve client tx)
            = (s, [.NonExistingTransaction tx]) := by
          simp [step, hc, hfind]
        refine ⟨?_, ?_⟩ <;> rw [hstep]
        · simp [specStep, Transaction.getClient, hc, hfind]
        · exact ⟨hA, hH, hM⟩
      · have hv : Quant v := mapQuant_find hM hfind
        by_cases hst : st = .onDispute
        · subst hst
          have hstep : step id s (.resolve client tx)
              = ({ s with
                    held := s.held - v,
                    available := s.available + v,
                    statuses := s.statuses.insert tx (.resolved, v) }, []) := by
            simp [step, hc, hfind]
          refine ⟨?_, ?_⟩ <;> rw [hstep]
          · simp [specStep, Transaction.getClient, hc, hfind]
          · exact ⟨quant_add hA hv, quant_sub hH hv, mapQuant_insert hM hv⟩
        · have hstep : (step id s (.resolve client tx)).1 = s := by
            cases st <;> simp_all [step, hc, hfind]
          refine ⟨?_, ?_⟩ <;> rw [hstep]
          · cases st <;> simp_all [specStep, Transaction.getClient, hc, hfind]
          · exact ⟨hA, hH, hM⟩
    · have hstep : step id s (.resolve client tx)
          = (s, [.WrongClientId id client]) := by
        simp [step, hc]
      refine ⟨?_, ?_⟩ <;> rw [hstep]
      · simp [specStep, Transaction.getClient, hc]
      · exact ⟨hA, hH, hM⟩
  | chargeback client tx =>
    by_cases hc : client = id
    · rcases hfind : s.statuses.find tx with _ | ⟨st, v⟩
      · have hstep : step id s (.chargeback client tx)
            = (s, [.NonExistingTransaction tx]) := by
          simp [step, hc, hfind]
        refine ⟨?_, ?_⟩ <;> rw [hstep]
        · simp [specStep, Transaction.getClient, hc, hfind]
        · exact ⟨hA, hH, hM⟩
      · have hv : Quant v := mapQuant_find hM hfind
        by_cases hst : st = .onDispute
        · subst hst
          have hstep : step id s (.chargeback client tx)
              = ({ s with
                    held := s.held - v,
                    locked := true,
                    statuses := s.statuses.insert tx (.chargeback, v) }, []) := by
            simp [step, hc, hfind]
          refine ⟨?_, ?_⟩ <;> rw [hstep]
          · simp [specStep, Transaction.getClient, hc, hfind]
          · exact ⟨hA, quant_sub hH hv, mapQuant_insert hM hv⟩
        · have hstep : (step id s (.chargeback client tx)).1 = s := by
            cases st <;> simp_all [step, hc, hfind]
          refine ⟨?_, ?_⟩ <;> rw [hstep]
          · cases st <;> simp_all [specStep, Transaction.getClient, hc, hfind]
          · exact ⟨hA, hH, hM⟩
    · have hstep : step id s (.chargeback client tx)
          = (s, [.WrongClientId id client]) := by
        simp [step, hc]
      refine ⟨?_, ?_⟩ <;> rw [hstep]
      · simp [specStep, Transaction.getClient, hc]
      · exact ⟨hA, hH, hM⟩

/-- Replay refinement: folding the source step from any quantized state
over a quantized sequence tracks the reference fold exactly, and ends
quantized. -/
theorem replay_agrees (id : Nat) :
    ∀ (l : List Transaction) (s : WorkerState),
    StateQuant s → (∀ t ∈ l, TxnQuant t) →
    l.foldl (fun s' t => (step id s' t).1) s = l.foldl (specStep id) s ∧
    StateQuant (l.foldl (fun s' t => (step id s' t).1) s) := by
  intro l
  induction l with
  | nil =>
    intro s hs _
    exact ⟨rfl, hs⟩
  | cons t r ih =>
    intro s hs hl
    obtain ⟨heq, hq⟩ := step_agrees id s t hs (hl t (List.mem_cons_self _ _))
    obtain ⟨e2, q2⟩ := ih (step id s t).1 hq
      (fun t' ht' => hl t' (List.mem_cons_of_mem _ ht'))
    refine ⟨?_, ?_⟩
    · simp only [List.foldl_cons]
      rw [← heq]
      exact e2
    · simpa using q2

/-- The state component of the worker loop is the plain state fold;
the error accumulator does not influence it. -/
theorem runWorker_fst (id : Nat) (l : List Transaction) :
    (runWorker id l).1 = l.foldl (fun s t => (step id s t).1) initState := by
  have general : ∀ (l' : List Transaction)
      (acc : WorkerState × List ClientStatusError),
      (l'.foldl (fun acc' t =>
        let r := step id acc'.1 t
        (r.1, acc'.2 ++ r.2)) acc).1
        = l'.foldl (fun s t => (step id s t).1) acc.1 := by
    intro l'
    induction l' with
    | nil => intro acc; rfl
    | cons t r ih => intro acc; simpa using ih _
  exact general l (initState, [])

theorem stateQuant_init : StateQuant initState :=
  ⟨quant_zero, quant_zero, mapQuant_nil⟩

/-- On a quantized input sequence the snapshot of the source worker equals
the snapshot of the section 4.3 reference replay. -/
theorem build_eq_specBuild (id : Nat) (l : List Transaction)
    (hq : ∀ t ∈ l, TxnQuant t) :
    (build id l).1 = specBuild id l := by
  obtain ⟨heq, -⟩ := replay_agrees id l initState stateQuant_init hq
  have hrw : (runWorker id l).1 = specReplay id l := by
    rw [runWorker_fst, heq]
    rfl
  simp [build, specBuild, hrw, add_comm]

/-- Every transaction the parsing adapter delivers carries a quantized
amount, because `TryInto<Transaction>` rounds it. -/
theorem parsed_txnQuant (rs : List RawTransaction) :
    ∀ t ∈ parsedTransactions rs, TxnQuant t := by
  intro t ht
  obtain ⟨r, -, hr⟩ := List.mem_filterMap.1 ht
  revert hr
  unfold RawTransaction.tryInto
  split_ifs <;> intro hr <;>
    simp only [Except.toOption] at hr <;>
    first
      | (rw [← Option.some_inj.1 hr]; exact quant_round r.amount)
      | (rw [← Option.some_inj.1 hr]; trivial)
      | simp at hr

/-- Membership in the dispatcher accumulator. -/
theorem mem_foldl_addClient (l : List Transaction) :
    ∀ (acc : List Nat) (x : Nat),
    x ∈ l.foldl (fun acc' t => addClient acc' t.getClient) acc ↔
    x ∈ acc ∨ x ∈ l.map Transaction.getClient := by
  induction l with
  | nil =>
    intro acc x
    simp
  | cons t r ih =>
    intro acc x
    rw [List.foldl_cons, ih]
    unfold addClient
    split_ifs with h
    · constructor
      · rintro (hx | hx)
        · exact Or.inl hx
        · exact Or.inr (List.mem_cons_of_mem _ hx)
      · rintro (hx | hx)
        · exact Or.inl hx
        · rcases List.mem_cons.1 hx with rfl | hx
          · exact Or.inl h
          · exact Or.inr hx
    · simp only [List.mem_append, List.mem_singleton, List.map_cons,
        List.mem_cons]
      tauto

/-- The dispatcher accumulator stays duplicate-free. -/
theorem nodup_foldl_addClient (l : List Transaction) :
    ∀ acc : List Nat, acc.Nodup →
    (l.foldl (fun acc' t => addClient acc' t.getClient) acc).Nodup := by
  induction l with
  | nil =>
    intro acc h
    exact h
  | cons t r ih =>
    intro acc h
    rw [List.foldl_cons]
    refine ih _ ?_
    unfold addClient
    split_ifs with hmem
    · exact h
    · simp [List.nodup_append, h, hmem]

theorem distinctClients_nodup (ts : List Transaction) :
    (distinctClients ts).Nodup :=
  nodup_foldl_addClient ts [] List.nodup_nil

theorem mem_distinctClients (ts : List Transaction) (x : Nat) :
    x ∈ distinctClients ts ↔ x ∈ ts.map Transaction.getClient := by
  rw [distinctClients, mem_foldl_addClient]
  simp

/-- Filtering a duplicate-free list for one of its members gives exactly
that singleton. -/
theorem filter_eq_singleton_of_nodup :
    ∀ (l : List Nat), l.Nodup → ∀ c ∈ l,
    l.filter (fun x => x == c) = [c] := by
  intro l
  induction l with
  | nil =>
    intro _ c hc
    simp at hc
  | cons a r ih =>
    intro hnd c hc
    obtain ⟨ha, hr⟩ := List.nodup_cons.1 hnd
    rcases List.mem_cons.1 hc with rfl | hc
    · have hnone : r.filter (fun x => x == c) = [] := by
        rw [List.filter_eq_nil_iff]
        intro b hb
        simp only [beq_iff_eq]
        rintro rfl
        exact ha hb
      simp [List.filter_cons, hnone]
    · have hne : (a == c) = false := by
        simp only [beq_eq_false_iff_ne, ne_eq]
        rintro rfl
        exact ha hc
      simp [List.filter_cons, hne, ih hr c hc]

/-- C1: for every customer id sighted by the dispatcher, the pipeline
emits exactly one snapshot with that id, and it equals the snapshot of the
single-threaded section 4.3 reference replay of that customer input
sub-sequence in input order. The per-customer delivery order is the
dispatcher ordering guarantee; the parse-time rounding makes every
delivered amount quantized, which collapses the `f32::EPSILON` guards of
the source and the half-unit-tolerant guards of the reference to the same
comparisons. -/
theorem c1_pipeline_refines_reference (rs : List RawTransaction) (c : Nat)
    (h : c ∈ distinctClients (parsedTransactions rs)) :
    (executeTransactions rs).filter (fun cs => cs.id == c)
      = [specBuild c ((parsedTransactions rs).filter
          (fun t => t.getClient == c))] := by
  have hq : ∀ t ∈ (parsedTransactions rs).filter
      (fun t => t.getClient == c), TxnQuant t :=
    fun t ht => parsed_txnQuant rs t (List.mem_of_mem_filter ht)
  rw [show executeTransactions rs
      = (distinctClients (parsedTransactions rs)).map (fun c' =>
          (build c' ((parsedTransactions rs).filter
            fun t => t.getClient == c')).1) from rfl]
  rw [List.filter_map]
  have hsingle : List.filter
      ((fun cs => cs.id == c) ∘ fun c' =>
        (build c' ((parsedTransactions rs).filter
          fun t => t.getClient == c')).1)
      (distinctClients (parsedTransactions rs)) = [c] :=
    filter_eq_singleton_of_nodup _ (distinctClients_nodup _) c h
  rw [hsingle]
  simp only [List.map_cons, List.map_nil]
  rw [build_eq_specBuild c
    ((parsedTransactions rs).filter fun t => t.getClient == c) hq]

/-- Witness for C1 on a concrete two-record batch for customer 1. -/
theorem c1_pipeline_refines_reference_witness :
    1 ∈ distinctClients (parsedTransactions
        [⟨"deposit", 1, 1, 1⟩, ⟨"withdrawal", 1, 2, 1⟩]) ∧
    (executeTransactions
        [⟨"deposit", 1, 1, 1⟩, ⟨"withdrawal", 1, 2, 1⟩]).filter
        (fun cs => cs.id == 1)
      = [specBuild 1 ((parsedTransactions
          [⟨"deposit", 1, 1, 1⟩, ⟨"withdrawal", 1, 2, 1⟩]).filter
          (fun t => t.getClient == 1))] := by
  have hmem : 1 ∈ distinctClients (parsedTransactions
      [⟨"deposit", 1, 1, 1⟩, ⟨"withdrawal", 1, 2, 1⟩]) := by
    simp [parsedTransactions, RawTransaction.tryInto, Except.toOption,
      distinctClients, addClient, Transaction.getClient]
  exact ⟨hmem, c1_pipeline_refines_reference _ 1 hmem⟩

/-- C5: the pipeline emits exactly as many snapshots as there are distinct
customer ids among the successfully parsed transactions: the dispatcher
spawns one worker per id on first sighting and each worker contributes
exactly one snapshot. -/
theorem c5_snapshot_count (rs : List RawTransaction) :
    (executeTransactions rs).length
      = ((parsedTransactions rs).map Transaction.getClient).toFinset.card := by
  have h1 : (executeTransactions rs).length
      = (distinctClients (parsedTransactions rs)).length :=
    List.length_map _ _
  have h2 : (distinctClients (parsedTransactions rs)).toFinset
      = ((parsedTransactions rs).map Transaction.getClient).toFinset := by
    ext x
    simp [List.mem_toFinset, mem_distinctClients]
  rw [h1, ← List.toFinset_card_of_nodup (distinctClients_nodup _), h2]

end Payments
